import Mathlib

/-!
Verification development for the dermatoscopic-vae model (src/model.py).

The file gives a shallow embedding of the numeric core of the program:
the Sampling layer (reparameterization trick with the mixed-precision
cast), the encoder output wiring of ConvolutionalVAE.__init__, the
loss computations shared by test_step and train_step (binary
cross-entropy reconstruction loss, closed-form KL loss, VGG feature
perceptual loss, and the total-loss combination), the keras Mean
metric trackers, and the state transitions of test_step / train_step.

Tensors are lists of real scalars.  The learned sub-networks
(convolution stacks, dense projections, the decoder body before its
final sigmoid, and the frozen VGG16 feature extractor) are abstract
per-example functions carried by the model value: every claim below
is about the wiring and the arithmetic that src/model.py itself
performs around those sub-networks.  Randomness (the standard-normal
draw of Sampling.call) is an oracle argument: a function producing a
tensor for a requested shape.
-/

namespace DermVAE

/-- A vector of scalars (a latent vector or a flattened feature map row). -/
abbrev Vec := List ℝ

/-- A 2-D tensor, as a batch of rows. -/
abbrev Mat := List (List ℝ)

/-- One image example, indexed height, width, channel. -/
abbrev Image := List (List (List ℝ))

/-- A batch of image examples. -/
abbrev Batch := List Image

noncomputable section

/-- The keras backend epsilon (1e-7) used by binary_crossentropy clipping. -/
def kerasEpsilon : ℝ := 1 / 10000000

/-- tf.reduce_mean of a 1-D tensor: sum divided by length. -/
def meanList (l : List ℝ) : ℝ := l.sum / (l.length : ℝ)

/-- keras.layers.Flatten applied to one example of a (H, W, C) map. -/
def flattenImg (img : Image) : Vec := img.flatten.flatten

/-- Tensor element dtypes; enough to model the tf.cast done in Sampling.call. -/
inductive DType | float16 | float32 | float64 deriving DecidableEq

/-- A 2-D tensor together with its dtype tag. -/
structure Tsr where
  data : Mat
  dtype : DType

/-- tf.exp, elementwise; dtype preserved. -/
def tfExp (t : Tsr) : Tsr := ⟨t.data.map (List.map Real.exp), t.dtype⟩

/-- Multiplication of a tensor by a python float scalar; dtype preserved. -/
def tfScale (c : ℝ) (t : Tsr) : Tsr := ⟨t.data.map (List.map (fun x => c * x)), t.dtype⟩

/-- tf.cast to a dtype. -/
def tfCast (t : Tsr) (d : DType) : Tsr := ⟨t.data, d⟩

/-- Dtype of tf.keras.backend.random_normal draws (the backend floatx default). -/
def randomNormalDtype : DType := DType.float32

/-- Elementwise addition of 2-D tensors. -/
def matAdd (a b : Mat) : Mat := List.zipWith (List.zipWith (fun x y => x + y)) a b

/-- Elementwise product of 2-D tensors. -/
def matHad (a b : Mat) : Mat := List.zipWith (List.zipWith (fun x y => x * y)) a b

/-- Sampling.call of src/model.py, lines 13-21: reads the batch size and the
latent dimension off z_mean's shape, forms a = exp(0.5 * z_log_var), asks the
random-normal oracle for a draw of shape (batch, dim), casts it to a's dtype,
and returns z_mean + a * epsilon. -/
def SamplingCall (zMean zLogVar : Tsr) (noise : ℕ → ℕ → Mat) : Tsr :=
  let batch := zMean.data.length
  let dim := (zMean.data.headD []).length
  let a := tfExp (tfScale 0.5 zLogVar)
  let epsilon := tfCast ⟨noise batch dim, randomNormalDtype⟩ a.dtype
  ⟨matAdd zMean.data (matHad a.data epsilon.data), zMean.dtype⟩

/-- The learned and frozen sub-networks of ConvolutionalVAE, as abstract
per-example functions: the encoder convolution stack up to Flatten, the two
dense projections z_mean and z_logvar, the decoder body before its final
sigmoid activation, and the five VGG16 feature-map outputs. -/
structure VAEModel where
  features : Image → Vec
  zMeanDense : Vec → Vec
  zLogvarDense : Vec → Vec
  decoderPre : Vec → Image
  vggFeats : Fin 5 → Image → Image

/-- The keras sigmoid activation, computed at float32 in the decoder. -/
def sigmoid (x : ℝ) : ℝ := 1 / (1 + Real.exp (-x))

/-- Applying the decoder to one latent vector: decoder body then sigmoid. -/
def decode (M : VAEModel) (v : Vec) : Image :=
  (M.decoderPre v).map (List.map (List.map sigmoid))

/-- The encoder built in ConvolutionalVAE.__init__, lines 32-45: conv stack,
Flatten, the two dense heads, Sampling on [z_mean_dense, z_logvar_dense], and
the output list [z_mean_dense, z_mean_dense, z] of line 45 (the mean tensor
appears twice; the z_logvar head feeds only the Sampling layer). -/
def encoderOut (M : VAEModel) (noise : ℕ → ℕ → Mat) (data : Batch) : Mat × Mat × Mat :=
  let x := data.map M.features
  let zMeanOut := x.map M.zMeanDense
  let zLogvarOut := x.map M.zLogvarDense
  let z := (SamplingCall ⟨zMeanOut, DType.float32⟩ ⟨zLogvarOut, DType.float32⟩ noise).data
  (zMeanOut, zMeanOut, z)

/-- The reconstruction produced inside test_step / train_step: decode every
sampled latent of the encoder's third output. -/
def reconstructionOf (M : VAEModel) (noise : ℕ → ℕ → Mat) (data : Batch) : Batch :=
  ((encoderOut M noise data).2.2).map (decode M)

/-- The clip_by_value(output, eps, 1 - eps) step of
keras.backend.binary_crossentropy. -/
def bceClip (output : ℝ) : ℝ := max kerasEpsilon (min (1 - kerasEpsilon) output)

/-- One term of keras.backend.binary_crossentropy (from_logits false): the
prediction is clipped into [eps, 1-eps] and eps is added inside each log. -/
def bceElt (target output : ℝ) : ℝ :=
  -(target * Real.log (bceClip output + kerasEpsilon)
    + (1 - target) * Real.log (1 - bceClip output + kerasEpsilon))

/-- keras.losses.binary_crossentropy on one pixel's channel vectors: the
elementwise cross-entropy averaged over the last (channel) axis. -/
def binaryCrossentropy (yTrue yPred : List ℝ) : ℝ :=
  meanList (List.zipWith bceElt yTrue yPred)

/-- The reconstruction loss of lines 116 and 144: binary cross-entropy (which
reduces the channel axis), then reduce_sum over the spatial axes (1, 2) per
example, then reduce_mean over the batch. -/
def reconLoss (data reconstruction : Batch) : ℝ :=
  meanList (List.zipWith (fun dImg rImg =>
    (List.zipWith (fun dRow rRow =>
      (List.zipWith (fun dPix rPix => binaryCrossentropy dPix rPix) dRow rRow).sum)
      dImg rImg).sum) data reconstruction)

/-- The elementwise KL expression of lines 117 and 145. -/
def klTerm (m lv : ℝ) : ℝ := -0.5 * (1 + lv - m ^ 2 - Real.exp lv)

/-- The KL loss of lines 117-118 and 145-146: elementwise klTerm, reduce_sum
over axis 1 (the latent dimensions), reduce_mean over the batch. -/
def klLoss (zMean zLogVar : Mat) : ℝ :=
  meanList (List.zipWith (fun ms lvs => (List.zipWith klTerm ms lvs).sum) zMean zLogVar)

/-- The summed squared difference of two flattened feature-map batches: the
value of tf.reduce_sum(tf.pow(a - b, 2)) with no axis argument, which sums
over every axis including the batch axis. -/
def sqDiffSumAll (a b : Mat) : ℝ :=
  (List.zipWith (fun ra rb => (List.zipWith (fun x y => (x - y) ^ 2) ra rb).sum) a b).sum

/-- One entry of feature_losses (lines 112 and 140):
tf.reduce_mean(tf.reduce_sum(tf.pow(fd - fr, 2))); the inner reduce_sum already
yields a scalar, so the outer reduce_mean averages a single element. -/
def scaleLoss (a b : Mat) : ℝ := meanList [sqDiffSumAll a b]

/-- The perceptual loss of lines 108-114 and 136-142, as a function of the two
lists of batched feature maps: flatten each map per example, take scaleLoss per
feature pair, and tf.math.add_n the per-scale results. -/
def perceptionLossOf (fmD fmR : List (List Image)) : ℝ :=
  (List.zipWith (fun fa fb => scaleLoss (fa.map flattenImg) (fb.map flattenImg)) fmD fmR).sum

/-- The five batched feature maps returned by self.vgg_model on a batch. -/
def vggOut (M : VAEModel) (data : Batch) : List (List Image) :=
  (List.finRange 5).map (fun i => data.map (M.vggFeats i))

/-- ConvolutionalVAE._total_loss_fn, lines 99-101. -/
def totalLossFn (reconstruction_loss kl_loss perception_loss : ℝ) : ℝ :=
  let r := 0.5 * reconstruction_loss
  r + 0.5 * perception_loss + kl_loss

/-- The four loss scalars computed by one forward pass, shared verbatim by
test_step (lines 103-119) and train_step (lines 128-148): total,
reconstruction, KL (fed the encoder's first and second outputs), perceptual. -/
structure Losses where
  total : ℝ
  recL : ℝ
  klL : ℝ
  pL : ℝ

/-- One forward pass plus loss computation on a batch. -/
def stepLosses (M : VAEModel) (noise : ℕ → ℕ → Mat) (data : Batch) : Losses :=
  let enc := encoderOut M noise data
  let reconstruction := reconstructionOf M noise data
  let p := perceptionLossOf (vggOut M data) (vggOut M reconstruction)
  let r := reconLoss data reconstruction
  let k := klLoss enc.1 enc.2.1
  ⟨totalLossFn r k p, r, k, p⟩

/-- A keras.metrics.Mean tracker: running total and update count. -/
structure MeanMetric where
  total : ℝ
  count : ℕ

/-- Mean.update_state with one scalar. -/
def MeanMetric.update (m : MeanMetric) (v : ℝ) : MeanMetric := ⟨m.total + v, m.count + 1⟩

/-- Mean.result: total over count (0 when no update happened yet). -/
def MeanMetric.result (m : MeanMetric) : ℝ := m.total / (m.count : ℝ)

/-- A freshly constructed (or freshly reset) Mean tracker. -/
def MeanMetric.fresh : MeanMetric := ⟨0, 0⟩

/-- The mutable state of one ConvolutionalVAE instance: its parameters and the
four running metric trackers created in __init__, lines 66-69. -/
structure VAEState where
  model : VAEModel
  totalTracker : MeanMetric
  recTracker : MeanMetric
  klTracker : MeanMetric
  pTracker : MeanMetric

/-- The dictionary literal shape shared by both steps' return statements. -/
def logsOf (L : Losses) : List (String × ℝ) :=
  [("loss", L.total), ("reconstruction_loss", L.recL),
   ("kl_loss", L.klL), ("perception_loss", L.pL)]

/-- Dictionary lookup on the returned logs. -/
def getLog : List (String × ℝ) → String → Option ℝ
  | [], _ => none
  | (k, v) :: rest, key => if k = key then some v else getLog rest key

/-- test_step, lines 103-126: the same forward pass and losses, no gradient
tape, no optimizer call, no tracker update; it returns the state unchanged and
the four instantaneous scalars. -/
def testStep (noise : ℕ → ℕ → Mat) (s : VAEState) (data : Batch) :
    VAEState × List (String × ℝ) :=
  (s, logsOf (stepLosses s.model noise data))

/-- train_step, lines 128-162: forward pass under the gradient tape, gradient
computation and optimizer application (abstracted as applyGrads, acting on the
parameters), update_state on each of the four trackers with the instantaneous
scalars, and a returned dictionary of the trackers' result() values. -/
def trainStep (applyGrads : VAEModel → Batch → VAEModel) (noise : ℕ → ℕ → Mat)
    (s : VAEState) (data : Batch) : VAEState × List (String × ℝ) :=
  let L := stepLosses s.model noise data
  let newModel := applyGrads s.model data
  let tT := s.totalTracker.update L.total
  let rT := s.recTracker.update L.recL
  let kT := s.klTracker.update L.klL
  let pT := s.pTracker.update L.pL
  (⟨newModel, tT, rT, kT, pT⟩, logsOf ⟨tT.result, rT.result, kT.result, pT.result⟩)

/-- Iterating train_step over a list of (batch, noise-oracle) pairs. -/
def trainRun (ag : VAEModel → Batch → VAEModel) (s : VAEState) :
    List (Batch × (ℕ → ℕ → Mat)) → VAEState
  | [] => s
  | (d, n) :: rest => trainRun ag (trainStep ag n s d).1 rest

/-- The instantaneous per-step loss values along a run of train steps. -/
def lossTrace (ag : VAEModel → Batch → VAEModel) (s : VAEState) :
    List (Batch × (ℕ → ℕ → Mat)) → List Losses
  | [] => []
  | (d, n) :: rest => stepLosses s.model n d :: lossTrace ag (trainStep ag n s d).1 rest

/-- The configuration record consumed by ConvolutionalVAE.__init__ (the
relevant fields of config.Config). -/
structure Config where
  latent_dim : ℕ
  input_shape : List ℕ
  filters : List ℕ
  kernels : ℕ
  strides : ℕ
  last_conv_dim : ℕ
  b_norm : ℝ

/-- The normalized beta value computed on line 30:
gamma * c.b_norm * latent_dim / math.prod(input_shape). -/
def bNormValue (gamma : ℝ) (cfg : Config) : ℝ :=
  gamma * cfg.b_norm * (cfg.latent_dim : ℝ) / ((cfg.input_shape.prod : ℕ) : ℝ)

/-- Modelled from the spec: the per-scale perceptual loss as the claim words
it, "the sum of squared element-wise differences of the flattened maps
averaged over the batch" (to be compared with scaleLoss, the value the source
computes). -/
def claimScaleLoss (fa fb : List Image) : ℝ :=
  meanList (List.zipWith (fun ia ib =>
    (List.zipWith (fun x y => (x - y) ^ 2) (flattenImg ia) (flattenImg ib)).sum) fa fb)

/-- Modelled from the spec: the perceptual loss as the claim words it, the
five batch-averaged per-scale results summed. -/
def claimPerceptionLoss (fmD fmR : List (List Image)) : ℝ :=
  (List.zipWith claimScaleLoss fmD fmR).sum

/-- A matrix shape predicate: B rows, every row of length D. -/
def IsMatrix (m : Mat) (B D : ℕ) : Prop := m.length = B ∧ ∀ r ∈ m, r.length = D

/-- A concrete tiny parameter state used by witnesses and counterexamples:
zero conv features, zero dense heads, a decoder body reading off the first
latent coordinate as a 1 by 1 by 1 image, constant VGG features. -/
def M0 : VAEModel where
  features := fun _ => [0]
  zMeanDense := fun _ => [0]
  zLogvarDense := fun _ => [0]
  decoderPre := fun v => [[[v.headD 0]]]
  vggFeats := fun _ _ => [[[0]]]

/-- A VAEState holding M0 with freshly constructed trackers. -/
def S0 : VAEState := ⟨M0, MeanMetric.fresh, MeanMetric.fresh, MeanMetric.fresh, MeanMetric.fresh⟩

/-- The configuration of claim C5 and of the C2 counterexample: latent_dim 8,
input_shape (32, 32, 1), filters [16, 32], kernel 3, stride 2,
last_conv_dim 8, base beta 1.0. -/
def cfgC5 : Config := ⟨8, [32, 32, 1], [16, 32], 3, 2, 8, 1⟩

/-- The 4 by 32 by 32 by 1 all-zero batch used by the C5 witness. -/
def batchC5 : Batch := List.replicate 4 (List.replicate 32 (List.replicate 32 [0]))

/-- A concrete 1 by 1 float32 mean tensor for the C7 witness. -/
def zmW : Tsr := ⟨[[0]], DType.float32⟩

/-- A concrete 1 by 1 float16 log-variance tensor for the C7 witness,
exercising the mixed-precision cast. -/
def zlvW : Tsr := ⟨[[0]], DType.float16⟩

/-- A concrete noise oracle for the C7 witness. -/
def noiseW : ℕ → ℕ → Mat := fun _ _ => [[1]]

/-- A one-step training schedule on an empty batch, used by the C9 witness. -/
def stepsW : List (Batch × (ℕ → ℕ → Mat)) := [([], fun _ _ => [])]

/-- A batched 1 by 1 by 1 feature map over two examples, all ones. -/
def scaleOnes : List Image := [[[[1]]], [[[1]]]]

/-- A batched 1 by 1 by 1 feature map over two examples, all zeros. -/
def scaleZeros : List Image := [[[[0]]], [[[0]]]]

/-- Five identical all-one feature-map batches (one per VGG scale). -/
def fmOnes : List (List Image) := [scaleOnes, scaleOnes, scaleOnes, scaleOnes, scaleOnes]

/-- Five identical all-zero feature-map batches (one per VGG scale). -/
def fmZeros : List (List Image) := [scaleZeros, scaleZeros, scaleZeros, scaleZeros, scaleZeros]

end

/-- Every element of a zipWith is the image of one element of each list. -/
lemma mem_zipWith {α β γ : Type} {f : α → β → γ} {x : γ} :
    ∀ {l₁ : List α} {l₂ : List β}, x ∈ List.zipWith f l₁ l₂ → ∃ a ∈ l₁, ∃ b ∈ l₂, x = f a b := by
  intro l₁
  induction l₁ with
  | nil => intro l₂ h; simp at h
  | cons a t ih =>
    intro l₂ h
    cases l₂ with
    | nil => simp at h
    | cons b t₂ =>
      simp only [List.zipWith_cons_cons, List.mem_cons] at h
      rcases h with h | h
      · exact ⟨a, List.mem_cons_self a t, b, List.mem_cons_self b t₂, h⟩
      · obtain ⟨a', ha', b', hb', hx⟩ := ih h
        exact ⟨a', List.mem_cons_of_mem _ ha', b', List.mem_cons_of_mem _ hb', hx⟩

/-- Sum of a zipWith of pointwise nonnegative values is nonnegative. -/
lemma sum_zipWith_nonneg {α β : Type} (f : α → β → ℝ) (l₁ : List α) (l₂ : List β)
    (h : ∀ a ∈ l₁, ∀ b ∈ l₂, 0 ≤ f a b) : 0 ≤ (List.zipWith f l₁ l₂).sum := by
  refine List.sum_nonneg ?_
  intro x hx
  obtain ⟨a, ha, b, hb, rfl⟩ := mem_zipWith hx
  exact h a ha b hb

/-- Zipping a list with itself is mapping the diagonal. -/
lemma zipWith_self {α β : Type} (f : α → α → β) :
    ∀ l : List α, List.zipWith f l l = l.map (fun a => f a a) := by
  intro l; induction l with
  | nil => rfl
  | cons a t ih => simp [ih]

/-- A nonnegative list summing to zero is all zero. -/
lemma all_zero_of_sum_zero {l : List ℝ} (h : ∀ x ∈ l, 0 ≤ x) (hs : l.sum = 0) :
    ∀ x ∈ l, x = 0 := by
  induction l with
  | nil => simp
  | cons a t ih =>
    have ha : 0 ≤ a := h a (List.mem_cons_self a t)
    have ht : ∀ x ∈ t, 0 ≤ x := fun x hx => h x (List.mem_cons_of_mem _ hx)
    have hts : 0 ≤ t.sum := List.sum_nonneg ht
    have hsum : a + t.sum = 0 := by simpa using hs
    have ha0 : a = 0 := by linarith
    have ht0 : t.sum = 0 := by linarith
    intro x hx
    rcases List.mem_cons.mp hx with rfl | hx
    · exact ha0
    · exact ih ht ht0 x hx

/-- The mean of a list of nonnegative values is nonnegative. -/
lemma meanList_nonneg {l : List ℝ} (h : ∀ x ∈ l, 0 ≤ x) : 0 ≤ meanList l :=
  div_nonneg (List.sum_nonneg h) (Nat.cast_nonneg _)

/-- The mean of a one-element list is its element. -/
lemma meanList_singleton (x : ℝ) : meanList [x] = x := by
  simp [meanList]

/-- A nonnegative list has mean zero exactly when every element is zero. -/
lemma meanList_eq_zero_iff {l : List ℝ} (h : ∀ x ∈ l, 0 ≤ x) :
    meanList l = 0 ↔ ∀ x ∈ l, x = 0 := by
  constructor
  · intro h0
    cases l with
    | nil => simp
    | cons a t =>
      have hlen : ((a :: t).length : ℝ) ≠ 0 := Nat.cast_ne_zero.mpr (by simp)
      have hsum : (a :: t).sum = 0 := by
        have := h0
        unfold meanList at this
        exact (div_eq_zero_iff.mp this).resolve_right hlen
      exact all_zero_of_sum_zero h hsum
  · intro hz
    unfold meanList
    rw [List.sum_eq_zero hz, zero_div]

/-- getD of a zipWith at an in-range index. -/
lemma zipWith_getD {α β γ : Type} (f : α → β → γ) :
    ∀ (l₁ : List α) (l₂ : List β) (i : ℕ), i < l₁.length → i < l₂.length →
      ∀ (d₁ : α) (d₂ : β) (d₃ : γ),
        (List.zipWith f l₁ l₂).getD i d₃ = f (l₁.getD i d₁) (l₂.getD i d₂) := by
  intro l₁
  induction l₁ with
  | nil => intro l₂ i h₁; simp at h₁
  | cons a t ih =>
    intro l₂ i h₁ h₂ d₁ d₂ d₃
    cases l₂ with
    | nil => simp at h₂
    | cons b t₂ =>
      cases i with
      | zero => simp
      | succ n =>
        simp only [List.zipWith_cons_cons, List.getD_cons_succ]
        exact ih t₂ n (by simpa using h₁) (by simpa using h₂) d₁ d₂ d₃

/-- getD of a map at an in-range index. -/
lemma map_getD {α β : Type} (f : α → β) :
    ∀ (l : List α) (i : ℕ), i < l.length → ∀ (d₁ : α) (d₂ : β),
      (l.map f).getD i d₂ = f (l.getD i d₁) := by
  intro l
  induction l with
  | nil => intro i h; simp at h
  | cons a t ih =>
    intro i h d₁ d₂
    cases i with
    | zero => simp
    | succ n =>
      simp only [List.map_cons, List.getD_cons_succ]
      exact ih n (by simpa using h) d₁ d₂

/-- getD at an in-range index is a member of the list. -/
lemma getD_mem {α : Type} : ∀ (l : List α) (i : ℕ), i < l.length → ∀ d : α, l.getD i d ∈ l := by
  intro l
  induction l with
  | nil => intro i h; simp at h
  | cons a t ih =>
    intro i h d
    cases i with
    | zero => simp
    | succ n =>
      simp only [List.getD_cons_succ]
      exact List.mem_cons_of_mem _ (ih n (by simpa using h) d)

/-- The scalar fact behind KL nonnegativity under the duplicated mean. -/
lemma one_add_sub_le (m : ℝ) : 1 + m - m ^ 2 - Real.exp m ≤ 0 := by
  nlinarith [Real.add_one_le_exp m, sq_nonneg m]

/-- The scalar KL expression vanishes only at zero. -/
lemma one_add_sub_eq_zero_iff (m : ℝ) : 1 + m - m ^ 2 - Real.exp m = 0 ↔ m = 0 := by
  constructor
  · intro h
    have h1 := Real.add_one_le_exp m
    have h2 : m ^ 2 ≤ 0 := by nlinarith
    have h3 : m ^ 2 = 0 := le_antisymm h2 (sq_nonneg m)
    exact pow_eq_zero_iff (two_ne_zero) |>.mp h3
  · rintro rfl
    norm_num [Real.exp_zero]

/-- klTerm on the diagonal is nonnegative. -/
lemma klTerm_self_nonneg (m : ℝ) : 0 ≤ klTerm m m := by
  unfold klTerm
  nlinarith [one_add_sub_le m]

/-- klTerm on the diagonal vanishes only at zero. -/
lemma klTerm_self_eq_zero_iff (m : ℝ) : klTerm m m = 0 ↔ m = 0 := by
  unfold klTerm
  constructor
  · intro h
    have ht : 1 + m - m ^ 2 - Real.exp m = 0 := by linarith
    exact (one_add_sub_eq_zero_iff m).mp ht
  · rintro rfl
    norm_num [Real.exp_zero]

/-- klLoss applied to the same matrix twice, in mapped form. -/
lemma klLoss_self_eq (m : Mat) :
    klLoss m m = meanList (m.map (fun ms => (ms.map (fun x => klTerm x x)).sum)) := by
  unfold klLoss
  rw [zipWith_self]
  simp only [zipWith_self]

/-- klLoss of a mean fed into both slots is nonnegative. -/
lemma klLoss_self_nonneg (m : Mat) : 0 ≤ klLoss m m := by
  rw [klLoss_self_eq]
  apply meanList_nonneg
  intro x hx
  obtain ⟨ms, hms, rfl⟩ := List.mem_map.mp hx
  apply List.sum_nonneg
  intro y hy
  obtain ⟨a, ha, rfl⟩ := List.mem_map.mp hy
  exact klTerm_self_nonneg a

/-- klLoss of a mean fed into both slots vanishes exactly on all-zero means. -/
lemma klLoss_self_eq_zero_iff (m : Mat) :
    klLoss m m = 0 ↔ ∀ ms ∈ m, ∀ x ∈ ms, x = 0 := by
  rw [klLoss_self_eq]
  have hnn : ∀ x ∈ m.map (fun ms => (ms.map (fun x => klTerm x x)).sum), 0 ≤ x := by
    intro x hx
    obtain ⟨ms, hms, rfl⟩ := List.mem_map.mp hx
    apply List.sum_nonneg
    intro y hy
    obtain ⟨a, ha, rfl⟩ := List.mem_map.mp hy
    exact klTerm_self_nonneg a
  rw [meanList_eq_zero_iff hnn]
  constructor
  · intro h ms hms x hx
    have hrow := h _ (List.mem_map_of_mem _ hms)
    have hall := all_zero_of_sum_zero (l := ms.map (fun x => klTerm x x)) ?_ hrow
    · exact (klTerm_self_eq_zero_iff x).mp (hall _ (List.mem_map_of_mem _ hx))
    · intro y hy
      obtain ⟨a, ha, rfl⟩ := List.mem_map.mp hy
      exact klTerm_self_nonneg a
  · intro h y hy
    obtain ⟨ms, hms, rfl⟩ := List.mem_map.mp hy
    apply List.sum_eq_zero
    intro z hz
    obtain ⟨x, hx, rfl⟩ := List.mem_map.mp hz
    exact (klTerm_self_eq_zero_iff x).mpr (h ms hms x hx)

/-- One binary cross-entropy term is nonnegative whenever the target lies in
the unit interval; the prediction is unconstrained thanks to the clipping. -/
lemma bceElt_nonneg (y p : ℝ) (h0 : 0 ≤ y) (h1 : y ≤ 1) : 0 ≤ bceElt y p := by
  unfold bceElt
  have he : (0 : ℝ) < kerasEpsilon := by norm_num [kerasEpsilon]
  have he2 : kerasEpsilon ≤ 1 - kerasEpsilon := by norm_num [kerasEpsilon]
  set oc := bceClip p with hoc
  have hocl : kerasEpsilon ≤ oc := le_max_left _ _
  have hocu : oc ≤ 1 - kerasEpsilon := max_le he2 (min_le_left _ _)
  have hl1 : Real.log (oc + kerasEpsilon) ≤ 0 := Real.log_nonpos (by linarith) (by linarith)
  have hl2 : Real.log (1 - oc + kerasEpsilon) ≤ 0 := Real.log_nonpos (by linarith) (by linarith)
  nlinarith [mul_nonneg h0 (neg_nonneg.mpr hl1),
    mul_nonneg (show (0 : ℝ) ≤ 1 - y by linarith) (neg_nonneg.mpr hl2)]

/-- The reconstruction loss is nonnegative on unit-interval input batches. -/
lemma reconLoss_nonneg (data recon : Batch)
    (hd : ∀ img ∈ data, ∀ row ∈ img, ∀ pix ∈ row, ∀ v ∈ pix, 0 ≤ v ∧ v ≤ 1) :
    0 ≤ reconLoss data recon := by
  unfold reconLoss
  apply meanList_nonneg
  intro x hx
  obtain ⟨dImg, hdImg, rImg, hrImg, rfl⟩ := mem_zipWith hx
  apply sum_zipWith_nonneg
  intro dRow hdRow rRow hrRow
  apply sum_zipWith_nonneg
  intro dPix hdPix rPix hrPix
  unfold binaryCrossentropy
  apply meanList_nonneg
  intro y hy
  obtain ⟨v, hv, p, hp, rfl⟩ := mem_zipWith hy
  have hb := hd dImg hdImg dRow hdRow dPix hdPix v hv
  exact bceElt_nonneg v p hb.1 hb.2

/-- The perceptual loss is nonnegative. -/
lemma perceptionLossOf_nonneg (a b : List (List Image)) : 0 ≤ perceptionLossOf a b := by
  unfold perceptionLossOf
  apply sum_zipWith_nonneg
  intro fa hfa fb hfb
  unfold scaleLoss
  apply meanList_nonneg
  intro x hx
  simp only [List.mem_singleton] at hx
  subst hx
  unfold sqDiffSumAll
  apply sum_zipWith_nonneg
  intro ra hra rb hrb
  apply sum_zipWith_nonneg
  intro u hu w hw
  positivity

/-- Evaluating the returned dictionary at its first key. -/
lemma getLog_logsOf_loss (L : Losses) : getLog (logsOf L) ("loss") = some L.total := by
  simp [logsOf, getLog]

/-- Evaluating the returned dictionary at its second key. -/
lemma getLog_logsOf_rec (L : Losses) :
    getLog (logsOf L) ("reconstruction_loss") = some L.recL := by
  simp [logsOf, getLog]

/-- Evaluating the returned dictionary at its third key. -/
lemma getLog_logsOf_kl (L : Losses) : getLog (logsOf L) ("kl_loss") = some L.klL := by
  simp [logsOf, getLog]

/-- Evaluating the returned dictionary at its fourth key. -/
lemma getLog_logsOf_p (L : Losses) :
    getLog (logsOf L) ("perception_loss") = some L.pL := by
  simp [logsOf, getLog]

/-- The sigmoid at zero. -/
lemma sigmoid_zero : sigmoid 0 = 1 / 2 := by
  unfold sigmoid
  rw [neg_zero, Real.exp_zero]
  norm_num

/-- The reduce_mean wrapped around the already-scalar reduce_sum divides by
one: each feature_losses entry is the plain summed squared difference. -/
lemma scaleLoss_eq (a b : Mat) : scaleLoss a b = sqDiffSumAll a b := by
  unfold scaleLoss
  exact meanList_singleton _

/-- C1: The encoder model built in the constructor outputs a triple whose
second component is the same tensor as its first: for every parameter state,
noise oracle and input batch, the encoder returns (mean, mean, sample), where
the mean is the z_mean dense head applied to the flattened conv features, so
the value every downstream consumer reads as log-variance equals the mean
vector, not the z_logvar projection; the z_logvar projection feeds only the
Sampling layer that produces the sample. -/
theorem encoder_returns_mean_twice (M : VAEModel) (noise : ℕ → ℕ → Mat) (data : Batch) :
    (encoderOut M noise data).2.1 = (encoderOut M noise data).1
    ∧ (encoderOut M noise data).1 = data.map (fun img => M.zMeanDense (M.features img))
    ∧ (encoderOut M noise data).2.2 =
        (SamplingCall ⟨data.map (fun img => M.zMeanDense (M.features img)), DType.float32⟩
          ⟨data.map (fun img => M.zLogvarDense (M.features img)), DType.float32⟩ noise).data := by
  refine ⟨rfl, ?_, ?_⟩
  · simp only [encoderOut, List.map_map]
    rfl
  · simp only [encoderOut, List.map_map]
    rfl

/-- C2 counterexample: with the constructor default gamma = 100 and the fixed
configuration of the spec (latent_dim 8, input_shape (32, 32, 1), base beta
1.0), the normalized beta is 25/32; at (reconstruction, kl, perception) =
(0, 1, 0) the code's _total_loss_fn returns 1, while the claimed formula with
the beta coefficient multiplied into the KL term returns 25/32. -/
theorem total_loss_beta_counterexample :
    totalLossFn 0 1 0 ≠ 0.5 * 0 + 0.5 * 0 + bNormValue 100 cfgC5 * 1 := by
  norm_num [totalLossFn, bNormValue, cfgC5, List.prod_cons, List.prod_nil]

/-- C2 (amended): the total loss equals 0.5 * reconstruction_loss
+ 0.5 * perceptual_loss + kl_loss with no beta factor applied; the normalized
beta coefficient is computed in the constructor exactly as the claim says but
is never multiplied into the KL term of the combination, which both steps use
as the reported loss. -/
theorem total_loss_formula_no_beta (noise : ℕ → ℕ → Mat) (s : VAEState) (data : Batch)
    (ag : VAEModel → Batch → VAEModel) (r k p gamma : ℝ) (cfg : Config) :
    totalLossFn r k p = 0.5 * r + 0.5 * p + k
    ∧ bNormValue gamma cfg
        = gamma * cfg.b_norm * (cfg.latent_dim : ℝ) / ((cfg.input_shape.prod : ℕ) : ℝ)
    ∧ getLog (testStep noise s data).2 ("loss")
        = some (0.5 * (stepLosses s.model noise data).recL
            + 0.5 * (stepLosses s.model noise data).pL
            + (stepLosses s.model noise data).klL)
    ∧ (trainStep ag noise s data).1.totalTracker
        = s.totalTracker.update (0.5 * (stepLosses s.model noise data).recL
            + 0.5 * (stepLosses s.model noise data).pL
            + (stepLosses s.model noise data).klL) := by
  refine ⟨rfl, rfl, ?_, rfl⟩
  exact (getLog_logsOf_loss (stepLosses s.model noise data)).trans rfl

/-- C3 counterexample: with five identical feature-map pairs over a batch of
two examples, each pair differing by one everywhere on a single element, the
code's perceptual loss is 10 (no batch averaging) while the claimed
batch-averaged formula gives 5. -/
theorem perception_loss_counterexample :
    perceptionLossOf fmOnes fmZeros ≠ claimPerceptionLoss fmOnes fmZeros := by
  norm_num [fmOnes, fmZeros, scaleOnes, scaleZeros, perceptionLossOf, claimPerceptionLoss,
    scaleLoss, claimScaleLoss, sqDiffSumAll, flattenImg, meanList]

/-- C3 (amended): in both steps the perceptual loss is, per feature-map pair,
the sum of squared element-wise differences of the flattened maps over all
elements and all batch examples (the reduce_mean is applied to an
already-scalar reduce_sum, so no batch averaging happens), and the five
per-scale results are summed; this value is what test_step reports and what
train_step feeds its p_loss tracker. -/
theorem perception_loss_sum_formula (fmD fmR : List (List Image))
    (ag : VAEModel → Batch → VAEModel) (noise : ℕ → ℕ → Mat) (s : VAEState) (data : Batch) :
    perceptionLossOf fmD fmR
      = (List.zipWith (fun fa fb =>
          sqDiffSumAll (fa.map flattenImg) (fb.map flattenImg)) fmD fmR).sum
    ∧ getLog (testStep noise s data).2 ("perception_loss")
        = some (perceptionLossOf (vggOut s.model data)
            (vggOut s.model (reconstructionOf s.model noise data)))
    ∧ (trainStep ag noise s data).1.pTracker
        = s.pTracker.update (perceptionLossOf (vggOut s.model data)
            (vggOut s.model (reconstructionOf s.model noise data))) := by
  refine ⟨?_, ?_, rfl⟩
  · simp only [perceptionLossOf, scaleLoss_eq]
  · exact (getLog_logsOf_p (stepLosses s.model noise data)).trans rfl

/-- C6: the KL loss computed by both steps is the elementwise
-0.5 * (1 + logvar - mean^2 - exp logvar) summed over the latent dimensions
and averaged over the batch, applied to the encoder's first two outputs; on
all-zero mean and all-zero log-variance matrices it is exactly 0 for every
batch size and latent dimension. -/
theorem kl_loss_formula_zero :
    (∀ (noise : ℕ → ℕ → Mat) (s : VAEState) (data : Batch),
      getLog (testStep noise s data).2 ("kl_loss")
        = some (klLoss (encoderOut s.model noise data).1 (encoderOut s.model noise data).2.1))
    ∧ (∀ zMean zLogVar : Mat,
        klLoss zMean zLogVar = meanList (List.zipWith (fun ms lvs =>
          (List.zipWith (fun m lv => -0.5 * (1 + lv - m ^ 2 - Real.exp lv)) ms lvs).sum)
          zMean zLogVar))
    ∧ (∀ B D : ℕ,
        klLoss (List.replicate B (List.replicate D 0))
          (List.replicate B (List.replicate D 0)) = 0) := by
  refine ⟨?_, fun zMean zLogVar => rfl, ?_⟩
  · intro noise s data
    exact (getLog_logsOf_kl (stepLosses s.model noise data)).trans rfl
  · intro B D
    have h00 : klTerm (0 : ℝ) 0 = 0 := by norm_num [klTerm, Real.exp_zero]
    rw [klLoss_self_eq, List.map_replicate]
    simp [h00, List.sum_replicate, meanList]

/-- C8: the evaluation step mutates no state: it returns the model state (all
parameters and all four metric trackers) unchanged, and its returned
dictionary holds the four instantaneous loss scalars of that very call, not
tracker results. -/
theorem test_step_no_mutation (noise : ℕ → ℕ → Mat) (s : VAEState) (data : Batch) :
    (testStep noise s data).1 = s
    ∧ (testStep noise s data).1.model = s.model
    ∧ (testStep noise s data).1.totalTracker = s.totalTracker
    ∧ (testStep noise s data).1.recTracker = s.recTracker
    ∧ (testStep noise s data).1.klTracker = s.klTracker
    ∧ (testStep noise s data).1.pTracker = s.pTracker
    ∧ (testStep noise s data).2 = logsOf (stepLosses s.model noise data) :=
  ⟨rfl, rfl, rfl, rfl, rfl, rfl, rfl⟩

/-- The KL scalar of one forward pass is klLoss of the mean matrix against
itself, because the encoder emits the mean tensor in both slots. -/
lemma stepLosses_klL (M : VAEModel) (noise : ℕ → ℕ → Mat) (data : Batch) :
    (stepLosses M noise data).klL
      = klLoss (data.map (fun img => M.zMeanDense (M.features img)))
          (data.map (fun img => M.zMeanDense (M.features img))) := by
  show klLoss ((data.map M.features).map M.zMeanDense)
      ((data.map M.features).map M.zMeanDense) = _
  rw [List.map_map]
  rfl

/-- Reduction of one forward pass of the concrete model M0 on the one-pixel
zero batch with a latent draw e: the reconstruction loss is the binary
cross-entropy of target 0 against sigmoid of the sampled latent. -/
lemma stepLosses_M0_recL (e : ℝ) :
    (stepLosses M0 (fun _ _ => [[e]]) [[[[0]]]]).recL
      = bceElt 0 (sigmoid (0 + Real.exp (0.5 * 0) * e)) := by
  simp [stepLosses, reconstructionOf, encoderOut, SamplingCall, tfExp, tfScale, tfCast,
    matAdd, matHad, M0, decode, reconLoss, binaryCrossentropy, meanList]

/-- C4 counterexample: on the concrete parameter state M0 and the one-pixel
zero batch, two evaluation runs whose Sampling draws are 0 and 1 return
different reconstruction_loss values, so the two-run determinism claimed for
reconstruction_loss, kl_loss and p_loss jointly is false. -/
theorem test_step_two_runs_counterexample :
    getLog (testStep (fun _ _ => [[0]]) S0 [[[[0]]]]).2 ("reconstruction_loss")
      ≠ getLog (testStep (fun _ _ => [[1]]) S0 [[[[0]]]]).2 ("reconstruction_loss") := by
  have h₁ : getLog (testStep (fun _ _ => [[0]]) S0 [[[[0]]]]).2 ("reconstruction_loss")
      = some ((stepLosses M0 (fun _ _ => [[0]]) [[[[0]]]]).recL) :=
    (getLog_logsOf_rec (stepLosses M0 (fun _ _ => [[0]]) [[[[0]]]])).trans rfl
  have h₂ : getLog (testStep (fun _ _ => [[1]]) S0 [[[[0]]]]).2 ("reconstruction_loss")
      = some ((stepLosses M0 (fun _ _ => [[1]]) [[[[0]]]]).recL) :=
    (getLog_logsOf_rec (stepLosses M0 (fun _ _ => [[1]]) [[[[0]]]])).trans rfl
  have e₁ : (stepLosses M0 (fun _ _ => [[0]]) [[[[0]]]]).recL = bceElt 0 (sigmoid 0) := by
    rw [stepLosses_M0_recL]
    norm_num
  have e₂ : (stepLosses M0 (fun _ _ => [[1]]) [[[[0]]]]).recL = bceElt 0 (sigmoid 1) := by
    rw [stepLosses_M0_recL]
    norm_num [Real.exp_zero]
  rw [h₁, h₂, e₁, e₂]
  have he : (0 : ℝ) < kerasEpsilon := by norm_num [kerasEpsilon]
  have hE0 : 0 < Real.exp (-1) := Real.exp_pos _
  have hE1 : Real.exp (-1) < 1 := by
    calc Real.exp (-1) < Real.exp 0 := Real.exp_lt_exp.mpr (by norm_num)
    _ = 1 := Real.exp_zero
  have hEgt : (1 : ℝ) / 3 < Real.exp (-1) := by
    have h3 : Real.exp 1 < 3 := lt_trans Real.exp_one_lt_d9 (by norm_num)
    have hp : (0 : ℝ) < Real.exp 1 := Real.exp_pos 1
    have hip : (0 : ℝ) < (Real.exp 1)⁻¹ := inv_pos.mpr hp
    have hinv : (Real.exp 1)⁻¹ * Real.exp 1 = 1 := inv_mul_cancel₀ (ne_of_gt hp)
    have hkey : (Real.exp 1)⁻¹ * Real.exp 1 < (Real.exp 1)⁻¹ * 3 :=
      mul_lt_mul_of_pos_left h3 hip
    rw [hinv] at hkey
    rw [Real.exp_neg]
    linarith
  have h1E : (0 : ℝ) < 1 + Real.exp (-1) := by linarith
  have hs1 : sigmoid 1 = 1 / (1 + Real.exp (-1)) := rfl
  have hσhalf : (1 : ℝ) / 2 < sigmoid 1 := by
    rw [hs1, lt_div_iff₀ h1E]
    linarith
  have hσlt : sigmoid 1 < 1 := by
    rw [hs1, div_lt_one h1E]
    linarith
  have hgap : kerasEpsilon ≤ 1 - sigmoid 1 := by
    have h1s : 1 - sigmoid 1 = Real.exp (-1) / (1 + Real.exp (-1)) := by
      rw [hs1]
      field_simp
    rw [h1s, le_div_iff₀ h1E]
    simp only [kerasEpsilon]
    nlinarith
  have hclip0 : bceClip (sigmoid 0) = 1 / 2 := by
    rw [sigmoid_zero]
    unfold bceClip
    rw [min_eq_right (by norm_num [kerasEpsilon]), max_eq_right (by norm_num [kerasEpsilon])]
  have hclip1 : bceClip (sigmoid 1) = sigmoid 1 := by
    unfold bceClip
    rw [min_eq_right (by linarith), max_eq_right (by linarith [hσhalf, he] )]
  have hbce : ∀ x : ℝ, bceElt 0 x = -Real.log (1 - bceClip x + kerasEpsilon) := by
    intro x
    unfold bceElt
    ring
  rw [hbce, hbce, hclip0, hclip1]
  have hlt : 1 - sigmoid 1 + kerasEpsilon < 1 - 1 / 2 + kerasEpsilon := by linarith
  have hpos : 0 < 1 - sigmoid 1 + kerasEpsilon := by linarith
  have hlog := Real.log_lt_log hpos hlt
  intro hcon
  have hcon' := Option.some.inj hcon
  have h2 := neg_injective hcon'
  linarith [hlog, h2.le, h2.ge]

/-- C4 (amended): with the parameters fixed, two evaluation runs on the same
batch return equal kl_loss whatever the two Sampling draws are (the KL value
depends only on the encoder mean), and all returned values agree when the two
draws agree; the reconstruction and perceptual losses, however, depend on the
draw and need not agree between two runs. -/
theorem test_step_kl_two_runs_equal (noise₁ noise₂ : ℕ → ℕ → Mat)
    (s : VAEState) (data : Batch) :
    getLog (testStep noise₁ s data).2 ("kl_loss")
      = getLog (testStep noise₂ s data).2 ("kl_loss")
    ∧ (noise₁ = noise₂ → (testStep noise₁ s data).2 = (testStep noise₂ s data).2) := by
  constructor
  · have h₁ : getLog (testStep noise₁ s data).2 ("kl_loss")
        = some ((stepLosses s.model noise₁ data).klL) :=
      (getLog_logsOf_kl (stepLosses s.model noise₁ data)).trans rfl
    have h₂ : getLog (testStep noise₂ s data).2 ("kl_loss")
        = some ((stepLosses s.model noise₂ data).klL) :=
      (getLog_logsOf_kl (stepLosses s.model noise₂ data)).trans rfl
    rw [h₁, h₂, stepLosses_klL, stepLosses_klL]
  · rintro rfl
    rfl

/-- C4 witness: the conclusion of test_step_kl_two_runs_equal at the concrete
state S0, the one-pixel zero batch and the two draws 0 and 1. -/
theorem test_step_kl_two_runs_equal_witness :
    getLog (testStep (fun _ _ => [[0]] : ℕ → ℕ → Mat) S0 [[[[0]]]]).2 ("kl_loss")
      = getLog (testStep (fun _ _ => [[1]] : ℕ → ℕ → Mat) S0 [[[[0]]]]).2 ("kl_loss")
    ∧ ((fun _ _ => [[0]] : ℕ → ℕ → Mat) = (fun _ _ => [[1]] : ℕ → ℕ → Mat) →
        (testStep (fun _ _ => [[0]] : ℕ → ℕ → Mat) S0 [[[[0]]]]).2
          = (testStep (fun _ _ => [[1]] : ℕ → ℕ → Mat) S0 [[[[0]]]]).2) :=
  test_step_kl_two_runs_equal (fun _ _ => [[0]]) (fun _ _ => [[1]]) S0 [[[[0]]]]

/-- C10: for every parameter state and batch, the instantaneous kl_loss of a
forward pass is nonnegative even though the encoder feeds the mean into the
log-variance slot: elementwise 1 + m - m^2 - exp m is nonpositive with
equality exactly at m = 0, so the summed and batch-averaged KL is nonnegative
and vanishes exactly when every example's mean vector is zero; test_step
returns this instantaneous value and train_step returns its kl tracker's
running mean, which is also nonnegative when the tracker's accumulated total
is nonnegative. -/
theorem kl_loss_nonneg (ag : VAEModel → Batch → VAEModel) (noise : ℕ → ℕ → Mat)
    (s : VAEState) (data : Batch) (htr : 0 ≤ s.klTracker.total) :
    (∀ m : ℝ, 1 + m - m ^ 2 - Real.exp m ≤ 0 ∧ (1 + m - m ^ 2 - Real.exp m = 0 ↔ m = 0))
    ∧ 0 ≤ (stepLosses s.model noise data).klL
    ∧ ((stepLosses s.model noise data).klL = 0 ↔
        ∀ img ∈ data, ∀ μ ∈ s.model.zMeanDense (s.model.features img), μ = 0)
    ∧ getLog (testStep noise s data).2 ("kl_loss")
        = some ((stepLosses s.model noise data).klL)
    ∧ getLog (trainStep ag noise s data).2 ("kl_loss")
        = some ((s.klTracker.update (stepLosses s.model noise data).klL).result)
    ∧ 0 ≤ (s.klTracker.update (stepLosses s.model noise data).klL).result := by
  have hk : 0 ≤ (stepLosses s.model noise data).klL := by
    rw [stepLosses_klL]
    exact klLoss_self_nonneg _
  refine ⟨fun m => ⟨one_add_sub_le m, one_add_sub_eq_zero_iff m⟩, hk, ?_, ?_, ?_, ?_⟩
  · rw [stepLosses_klL, klLoss_self_eq_zero_iff]
    constructor
    · intro h img himg μ hμ
      exact h _ (List.mem_map_of_mem _ himg) μ hμ
    · intro h ms hms x hx
      obtain ⟨img, himg, rfl⟩ := List.mem_map.mp hms
      exact h img himg x hx
  · exact (getLog_logsOf_kl (stepLosses s.model noise data)).trans rfl
  · exact (getLog_logsOf_kl _).trans rfl
  · unfold MeanMetric.result MeanMetric.update
    apply div_nonneg
    · simpa using add_nonneg htr hk
    · positivity

/-- C10 witness: the hypothesis and conclusion of kl_loss_nonneg instantiated
at the concrete model M0, a zero draw and the one-pixel zero batch. -/
theorem kl_loss_nonneg_witness :
    0 ≤ S0.klTracker.total
    ∧ ((∀ m : ℝ, 1 + m - m ^ 2 - Real.exp m ≤ 0 ∧ (1 + m - m ^ 2 - Real.exp m = 0 ↔ m = 0))
      ∧ 0 ≤ (stepLosses S0.model (fun _ _ => [[0]]) [[[[0]]]]).klL
      ∧ ((stepLosses S0.model (fun _ _ => [[0]]) [[[[0]]]]).klL = 0 ↔
          ∀ img ∈ ([[[[0]]]] : Batch),
            ∀ μ ∈ S0.model.zMeanDense (S0.model.features img), μ = 0)
      ∧ getLog (testStep (fun _ _ => [[0]]) S0 [[[[0]]]]).2 ("kl_loss")
          = some ((stepLosses S0.model (fun _ _ => [[0]]) [[[[0]]]]).klL)
      ∧ getLog (trainStep (fun m _ => m) (fun _ _ => [[0]]) S0 [[[[0]]]]).2 ("kl_loss")
          = some ((S0.klTracker.update
              (stepLosses S0.model (fun _ _ => [[0]]) [[[[0]]]]).klL).result)
      ∧ 0 ≤ (S0.klTracker.update
          (stepLosses S0.model (fun _ _ => [[0]]) [[[[0]]]]).klL).result) :=
  ⟨le_refl 0, kl_loss_nonneg (fun m _ => m) (fun _ _ => [[0]]) S0 [[[[0]]]] (le_refl 0)⟩

/-- The length of the instantaneous-loss trace equals the number of steps. -/
lemma lossTrace_length (ag : VAEModel → Batch → VAEModel) :
    ∀ (steps : List (Batch × (ℕ → ℕ → Mat))) (s : VAEState),
      (lossTrace ag s steps).length = steps.length := by
  intro steps
  induction steps with
  | nil => intro s; rfl
  | cons step rest ih =>
    obtain ⟨d, n⟩ := step
    intro s
    show (stepLosses s.model n d :: lossTrace ag (trainStep ag n s d).1 rest).length = _
    rw [List.length_cons, List.length_cons, ih]

/-- State of one Mean tracker after a run of train steps: the tracker view F
accumulates the G component of every instantaneous loss and counts steps. -/
lemma trainRun_tracker (ag : VAEModel → Batch → VAEModel)
    (F : VAEState → MeanMetric) (G : Losses → ℝ)
    (hF : ∀ (n : ℕ → ℕ → Mat) (s : VAEState) (d : Batch),
      F (trainStep ag n s d).1 = (F s).update (G (stepLosses s.model n d))) :
    ∀ (steps : List (Batch × (ℕ → ℕ → Mat))) (s : VAEState),
      (F (trainRun ag s steps)).total = (F s).total + ((lossTrace ag s steps).map G).sum
      ∧ (F (trainRun ag s steps)).count = (F s).count + steps.length := by
  intro steps
  induction steps with
  | nil =>
    intro s
    constructor
    · show (F s).total = (F s).total + (([] : List Losses).map G).sum
      simp
    · show (F s).count = (F s).count + 0
      simp
  | cons step rest ih =>
    obtain ⟨d, n⟩ := step
    intro s
    obtain ⟨h1, h2⟩ := ih (trainStep ag n s d).1
    constructor
    · show (F (trainRun ag (trainStep ag n s d).1 rest)).total = _
      rw [h1, hF]
      show ((F s).total + G (stepLosses s.model n d))
          + ((lossTrace ag (trainStep ag n s d).1 rest).map G).sum = _
      rw [show lossTrace ag s ((d, n) :: rest)
          = stepLosses s.model n d :: lossTrace ag (trainStep ag n s d).1 rest from rfl]
      rw [List.map_cons, List.sum_cons]
      ring
    · show (F (trainRun ag (trainStep ag n s d).1 rest)).count = _
      rw [h2, hF]
      show ((F s).count + 1) + rest.length = (F s).count + ((d, n) :: rest).length
      rw [List.length_cons]
      omega

/-- C9: each train step updates each of the four running trackers with that
step's instantaneous loss value and returns the trackers' running means, and
the accumulation is an unweighted mean: after any sequence of consecutive
train steps starting from freshly reset trackers, each reported metric equals
the sum of the instantaneous per-step values divided by the number of steps. -/
theorem train_step_running_mean (ag : VAEModel → Batch → VAEModel)
    (steps : List (Batch × (ℕ → ℕ → Mat))) (s : VAEState)
    (h0 : s.totalTracker = MeanMetric.fresh ∧ s.recTracker = MeanMetric.fresh
      ∧ s.klTracker = MeanMetric.fresh ∧ s.pTracker = MeanMetric.fresh) :
    (∀ (n : ℕ → ℕ → Mat) (d : Batch) (s' : VAEState),
      (trainStep ag n s' d).1.totalTracker
          = s'.totalTracker.update (stepLosses s'.model n d).total
      ∧ (trainStep ag n s' d).1.recTracker
          = s'.recTracker.update (stepLosses s'.model n d).recL
      ∧ (trainStep ag n s' d).1.klTracker
          = s'.klTracker.update (stepLosses s'.model n d).klL
      ∧ (trainStep ag n s' d).1.pTracker
          = s'.pTracker.update (stepLosses s'.model n d).pL
      ∧ (trainStep ag n s' d).2 = logsOf ⟨(trainStep ag n s' d).1.totalTracker.result,
          (trainStep ag n s' d).1.recTracker.result,
          (trainStep ag n s' d).1.klTracker.result,
          (trainStep ag n s' d).1.pTracker.result⟩)
    ∧ (lossTrace ag s steps).length = steps.length
    ∧ (trainRun ag s steps).totalTracker.result
        = ((lossTrace ag s steps).map Losses.total).sum / (steps.length : ℝ)
    ∧ (trainRun ag s steps).recTracker.result
        = ((lossTrace ag s steps).map Losses.recL).sum / (steps.length : ℝ)
    ∧ (trainRun ag s steps).klTracker.result
        = ((lossTrace ag s steps).map Losses.klL).sum / (steps.length : ℝ)
    ∧ (trainRun ag s steps).pTracker.result
        = ((lossTrace ag s steps).map Losses.pL).sum / (steps.length : ℝ) := by
  obtain ⟨hT, hR, hK, hP⟩ := h0
  refine ⟨fun n d s' => ⟨rfl, rfl, rfl, rfl, rfl⟩, lossTrace_length ag steps s, ?_, ?_, ?_, ?_⟩
  · obtain ⟨h1, h2⟩ :=
      trainRun_tracker ag (fun st => st.totalTracker) Losses.total (fun n s' d => rfl) steps s
    have h1' : (trainRun ag s steps).totalTracker.total
        = s.totalTracker.total + ((lossTrace ag s steps).map Losses.total).sum := h1
    have h2' : (trainRun ag s steps).totalTracker.count
        = s.totalTracker.count + steps.length := h2
    show (trainRun ag s steps).totalTracker.total
        / (((trainRun ag s steps).totalTracker.count : ℕ) : ℝ) = _
    rw [h1', h2', hT]
    simp [MeanMetric.fresh]
  · obtain ⟨h1, h2⟩ :=
      trainRun_tracker ag (fun st => st.recTracker) Losses.recL (fun n s' d => rfl) steps s
    have h1' : (trainRun ag s steps).recTracker.total
        = s.recTracker.total + ((lossTrace ag s steps).map Losses.recL).sum := h1
    have h2' : (trainRun ag s steps).recTracker.count
        = s.recTracker.count + steps.length := h2
    show (trainRun ag s steps).recTracker.total
        / (((trainRun ag s steps).recTracker.count : ℕ) : ℝ) = _
    rw [h1', h2', hR]
    simp [MeanMetric.fresh]
  · obtain ⟨h1, h2⟩ :=
      trainRun_tracker ag (fun st => st.klTracker) Losses.klL (fun n s' d => rfl) steps s
    have h1' : (trainRun ag s steps).klTracker.total
        = s.klTracker.total + ((lossTrace ag s steps).map Losses.klL).sum := h1
    have h2' : (trainRun ag s steps).klTracker.count
        = s.klTracker.count + steps.length := h2
    show (trainRun ag s steps).klTracker.total
        / (((trainRun ag s steps).klTracker.count : ℕ) : ℝ) = _
    rw [h1', h2', hK]
    simp [MeanMetric.fresh]
  · obtain ⟨h1, h2⟩ :=
      trainRun_tracker ag (fun st => st.pTracker) Losses.pL (fun n s' d => rfl) steps s
    have h1' : (trainRun ag s steps).pTracker.total
        = s.pTracker.total + ((lossTrace ag s steps).map Losses.pL).sum := h1
    have h2' : (trainRun ag s steps).pTracker.count
        = s.pTracker.count + steps.length := h2
    show (trainRun ag s steps).pTracker.total
        / (((trainRun ag s steps).pTracker.count : ℕ) : ℝ) = _
    rw [h1', h2', hP]
    simp [MeanMetric.fresh]

/-- C9 witness: the hypothesis and conclusion of train_step_running_mean at
the fresh state S0 and a concrete one-step schedule. -/
theorem train_step_running_mean_witness :
    (S0.totalTracker = MeanMetric.fresh ∧ S0.recTracker = MeanMetric.fresh
      ∧ S0.klTracker = MeanMetric.fresh ∧ S0.pTracker = MeanMetric.fresh)
    ∧ ((∀ (n : ℕ → ℕ → Mat) (d : Batch) (s' : VAEState),
        (trainStep (fun m _ => m) n s' d).1.totalTracker
            = s'.totalTracker.update (stepLosses s'.model n d).total
        ∧ (trainStep (fun m _ => m) n s' d).1.recTracker
            = s'.recTracker.update (stepLosses s'.model n d).recL
        ∧ (trainStep (fun m _ => m) n s' d).1.klTracker
            = s'.klTracker.update (stepLosses s'.model n d).klL
        ∧ (trainStep (fun m _ => m) n s' d).1.pTracker
            = s'.pTracker.update (stepLosses s'.model n d).pL
        ∧ (trainStep (fun m _ => m) n s' d).2
            = logsOf ⟨(trainStep (fun m _ => m) n s' d).1.totalTracker.result,
                (trainStep (fun m _ => m) n s' d).1.recTracker.result,
                (trainStep (fun m _ => m) n s' d).1.klTracker.result,
                (trainStep (fun m _ => m) n s' d).1.pTracker.result⟩)
      ∧ (lossTrace (fun m _ => m) S0 stepsW).length = stepsW.length
      ∧ (trainRun (fun m _ => m) S0 stepsW).totalTracker.result
          = ((lossTrace (fun m _ => m) S0 stepsW).map Losses.total).sum / (stepsW.length : ℝ)
      ∧ (trainRun (fun m _ => m) S0 stepsW).recTracker.result
          = ((lossTrace (fun m _ => m) S0 stepsW).map Losses.recL).sum / (stepsW.length : ℝ)
      ∧ (trainRun (fun m _ => m) S0 stepsW).klTracker.result
          = ((lossTrace (fun m _ => m) S0 stepsW).map Losses.klL).sum / (stepsW.length : ℝ)
      ∧ (trainRun (fun m _ => m) S0 stepsW).pTracker.result
          = ((lossTrace (fun m _ => m) S0 stepsW).map Losses.pL).sum / (stepsW.length : ℝ)) :=
  ⟨⟨rfl, rfl, rfl, rfl⟩,
    train_step_running_mean (fun m _ => m) stepsW S0 ⟨rfl, rfl, rfl, rfl⟩⟩

/-- C5 counterexample: on the claim's own configuration (a 4 by 32 by 32 by 1
batch of values in [0, 1], fresh trackers), the key list of the dictionary a
train step returns is loss, reconstruction_loss, kl_loss, perception_loss,
not the claimed loss, reconstruction_loss, kl_loss, p_loss (p_loss is only
the display name of the tracker, not the dictionary key). -/
theorem train_step_keys_counterexample :
    (trainStep (fun m _ => m) (fun _ _ => [[0]]) S0 batchC5).2.map Prod.fst
      ≠ ["loss", "reconstruction_loss", "kl_loss", "p_loss"] := by
  intro h
  have h2 : (trainStep (fun m _ => m) (fun _ _ => [[0]]) S0 batchC5).2.map Prod.fst
      = ["loss", "reconstruction_loss", "kl_loss", "perception_loss"] := rfl
  rw [h2] at h
  simp at h

/-- C5 (amended): under the claim's configuration hypotheses (a batch of four
32 by 32 by 1 images with values in [0, 1]) and freshly reset trackers, one
train step returns a dictionary with exactly the four keys loss,
reconstruction_loss, kl_loss, perception_loss, and every returned value is
nonnegative (hence finite, the embedding being over the reals). -/
theorem train_step_keys_nonneg (ag : VAEModel → Batch → VAEModel) (noise : ℕ → ℕ → Mat)
    (s : VAEState) (data : Batch)
    (hfresh : s.totalTracker = MeanMetric.fresh ∧ s.recTracker = MeanMetric.fresh
      ∧ s.klTracker = MeanMetric.fresh ∧ s.pTracker = MeanMetric.fresh)
    (_hlen : data.length = 4)
    (_hshape : ∀ img ∈ data, img.length = 32
      ∧ ∀ row ∈ img, row.length = 32 ∧ ∀ pix ∈ row, pix.length = 1)
    (hval : ∀ img ∈ data, ∀ row ∈ img, ∀ pix ∈ row, ∀ v ∈ pix, 0 ≤ v ∧ v ≤ 1) :
    (trainStep ag noise s data).2.map Prod.fst
        = ["loss", "reconstruction_loss", "kl_loss", "perception_loss"]
    ∧ ∀ pr ∈ (trainStep ag noise s data).2, 0 ≤ pr.2 := by
  obtain ⟨hT, hR, hK, hP⟩ := hfresh
  have hr : 0 ≤ (stepLosses s.model noise data).recL := by
    show 0 ≤ reconLoss data (reconstructionOf s.model noise data)
    exact reconLoss_nonneg _ _ hval
  have hk : 0 ≤ (stepLosses s.model noise data).klL := by
    rw [stepLosses_klL]
    exact klLoss_self_nonneg _
  have hp : 0 ≤ (stepLosses s.model noise data).pL := by
    show 0 ≤ perceptionLossOf (vggOut s.model data)
        (vggOut s.model (reconstructionOf s.model noise data))
    exact perceptionLossOf_nonneg _ _
  have ht : 0 ≤ (stepLosses s.model noise data).total := by
    show 0 ≤ totalLossFn (stepLosses s.model noise data).recL
        (stepLosses s.model noise data).klL (stepLosses s.model noise data).pL
    simp only [totalLossFn]
    linarith
  have hres : ∀ v : ℝ, (MeanMetric.fresh.update v).result = v := by
    intro v
    simp [MeanMetric.fresh, MeanMetric.update, MeanMetric.result]
  have h2 : (trainStep ag noise s data).2
      = logsOf ⟨(s.totalTracker.update (stepLosses s.model noise data).total).result,
          (s.recTracker.update (stepLosses s.model noise data).recL).result,
          (s.klTracker.update (stepLosses s.model noise data).klL).result,
          (s.pTracker.update (stepLosses s.model noise data).pL).result⟩ := rfl
  rw [hT, hR, hK, hP, hres, hres, hres, hres] at h2
  constructor
  · rw [h2]
    rfl
  · intro pr hpr
    rw [h2] at hpr
    simp only [logsOf, List.mem_cons, List.not_mem_nil, or_false] at hpr
    rcases hpr with rfl | rfl | rfl | rfl
    · exact ht
    · exact hr
    · exact hk
    · exact hp

/-- C5 witness: the hypotheses and conclusion of train_step_keys_nonneg at
the concrete state S0 and the all-zero 4 by 32 by 32 by 1 batch. -/
theorem train_step_keys_nonneg_witness :
    (S0.totalTracker = MeanMetric.fresh ∧ S0.recTracker = MeanMetric.fresh
      ∧ S0.klTracker = MeanMetric.fresh ∧ S0.pTracker = MeanMetric.fresh)
    ∧ batchC5.length = 4
    ∧ (∀ img ∈ batchC5, img.length = 32
      ∧ ∀ row ∈ img, row.length = 32 ∧ ∀ pix ∈ row, pix.length = 1)
    ∧ (∀ img ∈ batchC5, ∀ row ∈ img, ∀ pix ∈ row, ∀ v ∈ pix, 0 ≤ v ∧ v ≤ 1)
    ∧ ((trainStep (fun m _ => m) (fun _ _ => [[0]]) S0 batchC5).2.map Prod.fst
        = ["loss", "reconstruction_loss", "kl_loss", "perception_loss"]
      ∧ ∀ pr ∈ (trainStep (fun m _ => m) (fun _ _ => [[0]]) S0 batchC5).2, 0 ≤ pr.2) := by
  have hshape : ∀ img ∈ batchC5, img.length = 32
      ∧ ∀ row ∈ img, row.length = 32 ∧ ∀ pix ∈ row, pix.length = 1 := by
    intro img himg
    simp only [batchC5, List.mem_replicate] at himg
    rw [himg.2]
    refine ⟨by simp, ?_⟩
    intro row hrow
    simp only [List.mem_replicate] at hrow
    rw [hrow.2]
    refine ⟨by simp, ?_⟩
    intro pix hpix
    simp only [List.mem_replicate] at hpix
    rw [hpix.2]
    simp
  have hval : ∀ img ∈ batchC5, ∀ row ∈ img, ∀ pix ∈ row, ∀ v ∈ pix, 0 ≤ v ∧ v ≤ 1 := by
    intro img himg row hrow pix hpix v hv
    simp only [batchC5, List.mem_replicate] at himg
    rw [himg.2] at hrow
    simp only [List.mem_replicate] at hrow
    rw [hrow.2] at hpix
    simp only [List.mem_replicate] at hpix
    rw [hpix.2] at hv
    simp only [List.mem_singleton] at hv
    rw [hv]
    norm_num
  exact ⟨⟨rfl, rfl, rfl, rfl⟩, by simp [batchC5], hshape, hval,
    train_step_keys_nonneg (fun m _ => m) (fun _ _ => [[0]]) S0 batchC5
      ⟨rfl, rfl, rfl, rfl⟩ (by simp [batchC5]) hshape hval⟩

/-- C7: for every pair of (B, D) mean and log-variance tensors and every
draw oracle producing (B, D) tensors, the Sampling layer returns a (B, D)
tensor whose entries are mean + exp(0.5 * log_variance) * epsilon, where
epsilon is the oracle's draw at exactly the mean's shape; the draw is cast to
the dtype of the exp(0.5 * log_variance) factor before the multiplication,
and the output keeps the mean's dtype. -/
theorem sampling_formula (zm zlv : Tsr) (noise : ℕ → ℕ → Mat) (B D : ℕ)
    (hm : IsMatrix zm.data B D) (hl : IsMatrix zlv.data B D)
    (hn : IsMatrix (noise B D) B D) :
    IsMatrix (SamplingCall zm zlv noise).data B D
    ∧ (∀ i j, i < B → j < D →
        ((SamplingCall zm zlv noise).data.getD i []).getD j 0
          = (zm.data.getD i []).getD j 0
            + Real.exp (0.5 * ((zlv.data.getD i []).getD j 0))
              * (((noise B D).getD i []).getD j 0))
    ∧ (tfCast ⟨noise B D, randomNormalDtype⟩ (tfExp (tfScale 0.5 zlv)).dtype).dtype
        = (tfExp (tfScale 0.5 zlv)).dtype
    ∧ (SamplingCall zm zlv noise).dtype = zm.dtype := by
  rcases Nat.eq_zero_or_pos B with hB | hB
  · subst hB
    have hnil : zm.data = [] := List.length_eq_zero.mp hm.1
    have hdata : (SamplingCall zm zlv noise).data = [] := by
      show matAdd zm.data (matHad (tfExp (tfScale 0.5 zlv)).data
          (noise zm.data.length (zm.data.headD []).length)) = []
      rw [hnil]
      rfl
    refine ⟨?_, ?_, rfl, rfl⟩
    · rw [hdata]
      exact ⟨rfl, by intro r hr; simp at hr⟩
    · intro i j hi
      exact absurd hi (Nat.not_lt_zero i)
  · obtain ⟨r0, rest, hzm⟩ : ∃ r0 rest, zm.data = r0 :: rest := by
      cases h : zm.data with
      | nil =>
        exfalso
        have hlen := hm.1
        rw [h] at hlen
        simp at hlen
        omega
      | cons a t => exact ⟨a, t, rfl⟩
    have hdim : (zm.data.headD []).length = D := by
      rw [hzm]
      show r0.length = D
      exact hm.2 r0 (by rw [hzm]; exact List.mem_cons_self r0 rest)
    have hkey : (SamplingCall zm zlv noise).data
        = matAdd zm.data (matHad
            ((zlv.data.map (List.map (fun x => 0.5 * x))).map (List.map Real.exp))
            (noise B D)) := by
      have h0 : (SamplingCall zm zlv noise).data
          = matAdd zm.data (matHad
              ((zlv.data.map (List.map (fun x => 0.5 * x))).map (List.map Real.exp))
              (noise zm.data.length (zm.data.headD []).length)) := rfl
      rw [h0, hm.1, hdim]
    set aD := (zlv.data.map (List.map (fun x => 0.5 * x))).map (List.map Real.exp) with haD
    set nD := noise B D with hnD
    have hlenA : aD.length = B := by
      rw [haD, List.length_map, List.length_map, hl.1]
    have hrowsA : ∀ r ∈ aD, r.length = D := by
      intro r hr
      rw [haD] at hr
      obtain ⟨r1, hr1, rfl⟩ := List.mem_map.mp hr
      obtain ⟨r2, hr2, rfl⟩ := List.mem_map.mp hr1
      rw [List.length_map, List.length_map]
      exact hl.2 r2 hr2
    have hlenH : (matHad aD nD).length = B := by
      unfold matHad
      rw [List.length_zipWith, hlenA, hn.1, min_self]
    have hrowsH : ∀ r ∈ matHad aD nD, r.length = D := by
      intro r hr
      unfold matHad at hr
      obtain ⟨ra, hra, rb, hrb, rfl⟩ := mem_zipWith hr
      rw [List.length_zipWith, hrowsA ra hra, hn.2 rb hrb, min_self]
    refine ⟨?_, ?_, rfl, rfl⟩
    · rw [hkey]
      constructor
      · show (List.zipWith (List.zipWith (fun x y => x + y)) zm.data (matHad aD nD)).length = B
        rw [List.length_zipWith, hm.1, hlenH, min_self]
      · intro r hr
        have hr' : r ∈ List.zipWith (List.zipWith (fun x y => x + y)) zm.data (matHad aD nD) := hr
        obtain ⟨ra, hra, rb, hrb, rfl⟩ := mem_zipWith hr'
        rw [List.length_zipWith, hm.2 ra hra, hrowsH rb hrb, min_self]
    · intro i j hi hj
      rw [hkey]
      have hiA : i < aD.length := by rw [hlenA]; exact hi
      have hiH : i < (matHad aD nD).length := by rw [hlenH]; exact hi
      have hiM : i < zm.data.length := by rw [hm.1]; exact hi
      have hiN : i < nD.length := by rw [hn.1]; exact hi
      have hiz : i < zlv.data.length := by rw [hl.1]; exact hi
      rw [show matAdd zm.data (matHad aD nD)
          = List.zipWith (List.zipWith (fun x y => x + y)) zm.data (matHad aD nD) from rfl]
      rw [zipWith_getD (List.zipWith (fun x y => x + y)) zm.data (matHad aD nD) i hiM hiH [] [] []]
      rw [show matHad aD nD = List.zipWith (List.zipWith (fun x y => x * y)) aD nD from rfl]
      rw [zipWith_getD (List.zipWith (fun x y => x * y)) aD nD i hiA hiN [] [] []]
      have hjM : j < (zm.data.getD i []).length := by
        rw [hm.2 _ (getD_mem zm.data i hiM [])]
        exact hj
      have hjA : j < (aD.getD i []).length := by
        rw [hrowsA _ (getD_mem aD i hiA [])]
        exact hj
      have hjN : j < (nD.getD i []).length := by
        rw [hn.2 _ (getD_mem nD i hiN [])]
        exact hj
      have hjH : j < (List.zipWith (fun x y => x * y) (aD.getD i []) (nD.getD i [])).length := by
        rw [List.length_zipWith]
        exact lt_min hjA hjN
      rw [zipWith_getD (fun x y => x + y) (zm.data.getD i [])
        (List.zipWith (fun x y => x * y) (aD.getD i []) (nD.getD i [])) j hjM hjH 0 0 0]
      rw [zipWith_getD (fun x y => x * y) (aD.getD i []) (nD.getD i []) j hjA hjN 0 0 0]
      have ha : (aD.getD i []).getD j 0 = Real.exp (0.5 * ((zlv.data.getD i []).getD j 0)) := by
        rw [haD]
        rw [map_getD (List.map Real.exp) (zlv.data.map (List.map (fun x => 0.5 * x))) i
          (by rw [List.length_map]; exact hiz) [] []]
        rw [map_getD (List.map (fun x => 0.5 * x)) zlv.data i hiz [] []]
        have hjz : j < (zlv.data.getD i []).length := by
          rw [hl.2 _ (getD_mem zlv.data i hiz [])]
          exact hj
        rw [map_getD Real.exp (List.map (fun x => 0.5 * x) (zlv.data.getD i [])) j
          (by rw [List.length_map]; exact hjz) 0 0]
        rw [map_getD (fun x => 0.5 * x) (zlv.data.getD i []) j hjz 0 0]
      rw [ha]

/-- C7 witness: the hypotheses and conclusion of sampling_formula at the
concrete 1 by 1 tensors zmW (float32), zlvW (float16) and the draw oracle
noiseW. -/
theorem sampling_formula_witness :
    IsMatrix zmW.data 1 1 ∧ IsMatrix zlvW.data 1 1 ∧ IsMatrix (noiseW 1 1) 1 1
    ∧ (IsMatrix (SamplingCall zmW zlvW noiseW).data 1 1
      ∧ (∀ i j, i < 1 → j < 1 →
          ((SamplingCall zmW zlvW noiseW).data.getD i []).getD j 0
            = (zmW.data.getD i []).getD j 0
              + Real.exp (0.5 * ((zlvW.data.getD i []).getD j 0))
                * (((noiseW 1 1).getD i []).getD j 0))
      ∧ (tfCast ⟨noiseW 1 1, randomNormalDtype⟩ (tfExp (tfScale 0.5 zlvW)).dtype).dtype
          = (tfExp (tfScale 0.5 zlvW)).dtype
      ∧ (SamplingCall zmW zlvW noiseW).dtype = zmW.dtype) := by
  have hm : IsMatrix zmW.data 1 1 := by
    refine ⟨rfl, ?_⟩
    intro r hr
    rw [show zmW.data = [[(0 : ℝ)]] from rfl] at hr
    simp only [List.mem_singleton] at hr
    rw [hr]
    rfl
  have hl : IsMatrix zlvW.data 1 1 := by
    refine ⟨rfl, ?_⟩
    intro r hr
    rw [show zlvW.data = [[(0 : ℝ)]] from rfl] at hr
    simp only [List.mem_singleton] at hr
    rw [hr]
    rfl
  have hn : IsMatrix (noiseW 1 1) 1 1 := by
    refine ⟨rfl, ?_⟩
    intro r hr
    rw [show noiseW 1 1 = [[(1 : ℝ)]] from rfl] at hr
    simp only [List.mem_singleton] at hr
    rw [hr]
    rfl
  exact ⟨hm, hl, hn, sampling_formula zmW zlvW noiseW 1 1 hm hl hn⟩

end DermVAE
